import Mathlib

/-!
Verification development for the session and transport core of the
audio-share server (`src/server-core/src/network_manager.cpp`).

The C++ source is shallowly embedded: bytes are `Nat`, buffers are
`List Nat`, the peer registry (`_playing_peer_list`, a map from control
channel to `peer_info_t`) is an association list paired with the static
id counter `g_id`, and fallible operations return `Except`.
-/

namespace AudioShare

/-! ### Command words

The `cmd_t` enumeration (values from the wire-protocol table: `NONE = 0`,
`GET_FORMAT = 1`, `START_PLAY = 2`, `HEARTBEAT = 3`; the enum lives in the
header, which only declares what `network_manager.cpp` uses). -/

def cmd_none : Nat := 0
def cmd_get_format : Nat := 1
def cmd_start_play : Nat := 2
def cmd_heartbeat : Nat := 3

/-! ### Segmenter (`network_manager::broadcast_audio_data`, lines 398-418)

```cpp
constexpr int mtu = 1492;
int max_seg_size = mtu - 20 - 8;
max_seg_size -= max_seg_size % block_align;
for (int begin_pos = 0; begin_pos < count;) {
    const int real_seg_size = std::min((int)count - begin_pos, max_seg_size);
    ... copy [begin_pos, begin_pos + real_seg_size) into seg ...
    seg_list.push_back(seg);
    begin_pos += real_seg_size;
}
```
-/

def mtu : Nat := 1492

/-- The value `max_seg_size = mtu - 20 - 8` before block alignment, i.e. 1464. -/
def max_seg_size_raw : Nat := mtu - 20 - 8

/-- The rounding `max_seg_size -= max_seg_size % block_align`. -/
def max_seg_size (block_align : Nat) : Nat :=
  max_seg_size_raw - max_seg_size_raw % block_align

/-- The segmentation loop of `broadcast_audio_data`, fuel-indexed.  Each
iteration emits the slice `[begin_pos, begin_pos + real_seg_size)` of `data`
with `real_seg_size = min (count - begin_pos) msz` and advances `begin_pos`
by `real_seg_size`; the loop stops when `begin_pos < count` fails. -/
def segment_loop (data : List Nat) (msz : Nat) : Nat → Nat → List (List Nat)
  | 0, _ => []
  | fuel + 1, begin_pos =>
    if begin_pos < data.length then
      let real_seg_size := min (data.length - begin_pos) msz
      ((data.drop begin_pos).take real_seg_size)
        :: segment_loop data msz fuel (begin_pos + real_seg_size)
    else []

/-- The segment list built by `broadcast_audio_data` for a payload `data`
and alignment `block_align` (the early return for `count <= 0` produces no
segments).  Fuel `data.length` suffices because each productive iteration
advances `begin_pos` by at least one byte. -/
def broadcast_segments (data : List Nat) (block_align : Nat) : List (List Nat) :=
  if data.length = 0 then []
  else segment_loop data (max_seg_size block_align) data.length 0

/-- The final value of `begin_pos` after running the segmentation loop for
at most `fuel` iterations: the loop's control skeleton, used to reason about
termination and progress. -/
def seg_final_pos (count msz : Nat) : Nat → Nat → Nat
  | 0, begin_pos => begin_pos
  | fuel + 1, begin_pos =>
    if begin_pos < count then
      seg_final_pos count msz fuel (begin_pos + min (count - begin_pos) msz)
    else begin_pos

/-! ### Segmenter lemmas -/

lemma max_seg_size_raw_eq : max_seg_size_raw = 1464 := by
  simp [max_seg_size_raw, mtu]

lemma max_seg_size_dvd (B : Nat) : B ∣ max_seg_size B := by
  have h := Nat.div_add_mod max_seg_size_raw B
  have : max_seg_size B = B * (max_seg_size_raw / B) := by
    unfold max_seg_size; omega
  exact ⟨max_seg_size_raw / B, this⟩

lemma max_seg_size_le (B : Nat) : max_seg_size B ≤ 1464 := by
  have := max_seg_size_raw_eq
  unfold max_seg_size; omega

lemma max_seg_size_pos (B : Nat) (h1 : 1 ≤ B) (h2 : B ≤ 1464) :
    0 < max_seg_size B := by
  have hlt : max_seg_size_raw % B < B := Nat.mod_lt _ h1
  have := max_seg_size_raw_eq
  unfold max_seg_size; omega

lemma max_seg_size_eq_zero (B : Nat) (h : 1464 < B) : max_seg_size B = 0 := by
  have : max_seg_size_raw % B = max_seg_size_raw :=
    Nat.mod_eq_of_lt (by rw [max_seg_size_raw_eq]; omega)
  unfold max_seg_size; omega

lemma segment_loop_flatten (data : List Nat) (msz : Nat) (hmsz : 0 < msz) :
    ∀ fuel begin_pos, data.length - begin_pos ≤ fuel →
      (segment_loop data msz fuel begin_pos).flatten = data.drop begin_pos := by
  intro fuel
  induction fuel with
  | zero =>
    intro p hp
    have : data.length ≤ p := by omega
    simp [segment_loop, List.drop_eq_nil_of_le this]
  | succ n ih =>
    intro p hp
    by_cases h : p < data.length
    · have hreal : 0 < min (data.length - p) msz := by
        have : 0 < data.length - p := by omega
        exact lt_min this hmsz
      simp only [segment_loop, if_pos h, List.flatten_cons]
      rw [ih (p + min (data.length - p) msz) (by omega)]
      rw [show data.drop (p + min (data.length - p) msz)
            = (data.drop p).drop (min (data.length - p) msz) by
          rw [List.drop_drop]]
      exact List.take_append_drop _ _
    · simp [segment_loop, if_neg h, List.drop_eq_nil_of_le (by omega : data.length ≤ p)]

/-- Every segment emitted by the loop has length at most `msz` and, when
`B ∣ msz` and `B` divides the bytes remaining at entry, divisible by `B`. -/
lemma segment_loop_mem_bounds (data : List Nat) (msz B : Nat)
    (hdvd : B ∣ msz) :
    ∀ fuel begin_pos, B ∣ (data.length - begin_pos) →
      ∀ seg ∈ segment_loop data msz fuel begin_pos,
        seg.length ≤ msz ∧ B ∣ seg.length := by
  intro fuel
  induction fuel with
  | zero => intro p _ seg h; simp [segment_loop] at h
  | succ n ih =>
    intro p hrem seg h
    by_cases hc : p < data.length
    · simp only [segment_loop, if_pos hc, List.mem_cons] at h
      have hlen : ((data.drop p).take (min (data.length - p) msz)).length
          = min (data.length - p) msz := by
        rw [List.length_take, List.length_drop]
        omega
      rcases h with h | h
      · subst h
        rw [hlen]
        constructor
        · omega
        · rcases Nat.le_total (data.length - p) msz with hle | hle
          · rw [min_eq_left hle]; exact hrem
          · rw [min_eq_right hle]; exact hdvd
      · refine ih (p + min (data.length - p) msz) ?_ seg h
        have : data.length - (p + min (data.length - p) msz)
            = (data.length - p) - min (data.length - p) msz := by omega
        rw [this]
        rcases Nat.le_total (data.length - p) msz with hle | hle
        · rw [min_eq_left hle]
          simp
        · rw [min_eq_right hle]
          exact Nat.dvd_sub' hrem hdvd
    · simp [segment_loop, if_neg hc] at h

lemma seg_final_pos_complete (count msz : Nat) (hmsz : 0 < msz) :
    ∀ fuel begin_pos, begin_pos ≤ count → count - begin_pos ≤ fuel →
      seg_final_pos count msz fuel begin_pos = count := by
  intro fuel
  induction fuel with
  | zero =>
    intro p h1 h2
    simp only [seg_final_pos]
    omega
  | succ n ih =>
    intro p h1 h2
    by_cases hc : p < count
    · simp only [seg_final_pos, if_pos hc]
      have hmin : 0 < min (count - p) msz := lt_min (by omega) hmsz
      exact ih _ (by omega) (by omega)
    · simp only [seg_final_pos, if_neg hc]
      omega

lemma seg_final_pos_stuck (count : Nat) :
    ∀ fuel begin_pos, seg_final_pos count 0 fuel begin_pos = begin_pos := by
  intro fuel
  induction fuel with
  | zero => intro p; rfl
  | succ n ih =>
    intro p
    by_cases hc : p < count
    · simp only [seg_final_pos, if_pos hc]
      rw [Nat.min_zero, Nat.add_zero]
      exact ih p
    · simp only [seg_final_pos, if_neg hc]

/-! ### Claim theorems: segmentation -/

/-- C1: for every payload of length `L > 0` and block alignment `B` with
`B ∣ L` and `1 ≤ B ≤ 1464`, the segmenter used by `broadcast_audio_data`
partitions the payload into consecutive segments in input order:
concatenating the segments yields the original payload, and every segment's
length is at most 1464 bytes and divisible by `B`. -/
theorem broadcast_segments_partition (data : List Nat) (B : Nat)
    (hL : 0 < data.length) (hB1 : 1 ≤ B) (hB2 : B ≤ 1464)
    (hdvd : B ∣ data.length) :
    (broadcast_segments data B).flatten = data ∧
    ∀ seg ∈ broadcast_segments data B, seg.length ≤ 1464 ∧ B ∣ seg.length := by
  have hpos : 0 < max_seg_size B := max_seg_size_pos B hB1 hB2
  have hne : ¬ (data.length = 0) := by omega
  constructor
  · rw [broadcast_segments, if_neg hne]
    have := segment_loop_flatten data (max_seg_size B) hpos data.length 0 (by omega)
    simpa using this
  · intro seg hseg
    rw [broadcast_segments, if_neg hne] at hseg
    have := segment_loop_mem_bounds data (max_seg_size B) B (max_seg_size_dvd B)
      data.length 0 (by simpa using hdvd) seg hseg
    exact ⟨le_trans this.1 (max_seg_size_le B), this.2⟩

/-- Witness for C1 at a concrete payload of 8 bytes with `block_align = 4`. -/
theorem broadcast_segments_partition_witness :
    (broadcast_segments [10, 11, 12, 13, 14, 15, 16, 17] 4).flatten
        = [10, 11, 12, 13, 14, 15, 16, 17] ∧
    ∀ seg ∈ broadcast_segments [10, 11, 12, 13, 14, 15, 16, 17] 4,
      seg.length ≤ 1464 ∧ 4 ∣ seg.length :=
  broadcast_segments_partition [10, 11, 12, 13, 14, 15, 16, 17] 4
    (by decide) (by decide) (by decide) (by decide)

/-- C10: the segmentation loop inside `broadcast_audio_data` terminates for
every `count > 0` provided `1 ≤ block_align ≤ 1464`: the rounded maximum
segment size `1464 - (1464 % block_align)` is positive and `begin_pos`
reaches `count` within `count` iterations; for `block_align > 1464` the
rounded maximum segment size is 0 and the loop makes no progress from any
position, for any number of iterations. -/
theorem segment_loop_termination (count B : Nat) (hc : 0 < count) :
    (1 ≤ B → B ≤ 1464 →
      0 < max_seg_size B ∧
      seg_final_pos count (max_seg_size B) count 0 = count) ∧
    (1464 < B →
      max_seg_size B = 0 ∧
      ∀ fuel, seg_final_pos count (max_seg_size B) fuel 0 = 0) := by
  constructor
  · intro h1 h2
    have hpos := max_seg_size_pos B h1 h2
    exact ⟨hpos, seg_final_pos_complete count _ hpos count 0 (by omega) (by omega)⟩
  · intro h
    have hz := max_seg_size_eq_zero B h
    refine ⟨hz, ?_⟩
    intro fuel
    rw [hz]
    exact seg_final_pos_stuck count fuel 0

/-- Witness for C10 at `count = 2928`, `block_align = 4` (the aligned branch)
and at `count = 5`, `block_align = 2000` (the stuck branch). -/
theorem segment_loop_termination_witness :
    ((1 ≤ 4 → 4 ≤ 1464 →
        0 < max_seg_size 4 ∧
        seg_final_pos 2928 (max_seg_size 4) 2928 0 = 2928) ∧
      (1464 < 4 →
        max_seg_size 4 = 0 ∧
        ∀ fuel, seg_final_pos 2928 (max_seg_size 4) fuel 0 = 0)) ∧
    ((1 ≤ 2000 → 2000 ≤ 1464 →
        0 < max_seg_size 2000 ∧
        seg_final_pos 5 (max_seg_size 2000) 5 0 = 5) ∧
      (1464 < 2000 →
        max_seg_size 2000 = 0 ∧
        ∀ fuel, seg_final_pos 5 (max_seg_size 2000) fuel 0 = 0)) :=
  ⟨segment_loop_termination 2928 4 (by decide),
   segment_loop_termination 5 2000 (by decide)⟩

/-! ### Peer registry (`_playing_peer_list`, `g_id`)

`_playing_peer_list` is a `std::map<std::shared_ptr<tcp_socket>,
std::shared_ptr<peer_info_t>>`; control channels are identified here by an
abstract handle (`Chan := Nat`), datagram endpoints by `Endpoint := Nat`.

`peer_info_t` itself is declared in the header (not under `src/`); its
fields are those the `.cpp` uses: `id`, `last_tick`, `udp_peer`.  Following
the spec's session record ("`datagram_endpoint`: optional remote datagram
address; absent until the peer registers it"), `udp_peer` is an `Option`:
`none` models the default-constructed `ip::udp::endpoint` a fresh
`peer_info_t` holds before `fill_udp_peer` assigns it, and reading an
absent endpoint (as the broadcast loop does) yields that default value. -/

abbrev Chan := Nat
abbrev Endpoint := Nat

/-- The default-constructed `ip::udp::endpoint` (0.0.0.0:0). -/
def default_endpoint : Endpoint := 0

structure peer_info_t where
  id : Nat
  last_tick : Nat
  udp_peer : Option Endpoint
  deriving Repr, DecidableEq

/-- Registry state: the map `_playing_peer_list` as an association list,
plus the static counter `g_id` of `add_playing_peer` (initially 0). -/
structure RegState where
  playing_peer_list : List (Chan × peer_info_t)
  g_id : Nat
  deriving Repr, DecidableEq

def RegState.initial : RegState := ⟨[], 0⟩

/-- The map lookup `_playing_peer_list.find(peer)`, returning the record. -/
def lookup_peer : List (Chan × peer_info_t) → Chan → Option peer_info_t
  | [], _ => none
  | e :: rest, peer => if e.1 = peer then some e.2 else lookup_peer rest peer

/-- The map erase `_playing_peer_list.erase(it)` where `it = find(peer)`: removes the
(first) entry with that key, no-op when absent. -/
def erase_peer : List (Chan × peer_info_t) → Chan → List (Chan × peer_info_t)
  | [], _ => []
  | e :: rest, peer => if e.1 = peer then rest else e :: erase_peer rest peer

/-- Function `network_manager::add_playing_peer` (lines 354-368): reject a repeated
add with result 0; otherwise insert a fresh record with `id = ++g_id` and
`last_tick = now`, returning the id. -/
def add_playing_peer (s : RegState) (peer : Chan) (now : Nat) : Nat × RegState :=
  match lookup_peer s.playing_peer_list peer with
  | some _ => (0, s)
  | none =>
    (s.g_id + 1,
     ⟨s.playing_peer_list ++ [(peer, ⟨s.g_id + 1, now, none⟩)], s.g_id + 1⟩)

/-- Function `network_manager::remove_playing_peer` (lines 370-381): erase the
entry when present; a repeated remove only logs. -/
def remove_playing_peer (s : RegState) (peer : Chan) : RegState :=
  { s with playing_peer_list := erase_peer s.playing_peer_list peer }

/-- Function `network_manager::close_session` (lines 345-352): remove the peer from
the registry, then shut down and close its control channel.  Returns the
new registry state; the `Bool` records that the channel was closed. -/
def close_session (s : RegState) (peer : Chan) : RegState × Bool :=
  (remove_playing_peer s peer, true)

/-- The body of `fill_udp_peer`'s `std::find_if` + assignment: update the
first record whose `id` matches, leaving everything else in place. -/
def fill_udp_list : List (Chan × peer_info_t) → Nat → Endpoint →
    List (Chan × peer_info_t)
  | [], _, _ => []
  | e :: rest, id, ep =>
    if e.2.id = id then (e.1, { e.2 with udp_peer := some ep }) :: rest
    else e :: fill_udp_list rest id ep

/-- Function `network_manager::fill_udp_peer` (lines 383-396): look up the record by
`id` (`std::find_if`); if absent, log and drop; otherwise assign `udp_peer`
from the datagram's source endpoint. -/
def fill_udp_peer (s : RegState) (id : Nat) (ep : Endpoint) : RegState :=
  match s.playing_peer_list.find? (fun e => e.2.id == id) with
  | none => s
  | some _ => { s with playing_peer_list := fill_udp_list s.playing_peer_list id ep }

/-- The `cmd_heartbeat` branch of `read_loop` (lines 254-258): if the peer
is registered, refresh its `last_tick`. -/
def refresh_heartbeat : List (Chan × peer_info_t) → Chan → Nat →
    List (Chan × peer_info_t)
  | [], _, _ => []
  | e :: rest, peer, now =>
    if e.1 = peer then (e.1, { e.2 with last_tick := now }) :: rest
    else e :: refresh_heartbeat rest peer now

def read_heartbeat (s : RegState) (peer : Chan) (now : Nat) : RegState :=
  { s with playing_peer_list := refresh_heartbeat s.playing_peer_list peer now }

/-! ### Registry histories

The registry is only mutated by `add_playing_peer`, `remove_playing_peer`
(also via `close_session`), `fill_udp_peer` and the heartbeat refresh, all
running on the single executor thread; a reachable state is the result of a
sequence of these operations from the empty registry. -/

inductive RegOp
  | add (peer : Chan) (now : Nat)
  | remove (peer : Chan)
  | fill (id : Nat) (ep : Endpoint)
  | heartbeat (peer : Chan) (now : Nat)
  deriving Repr, DecidableEq

def applyOp (s : RegState) : RegOp → RegState
  | .add peer now => (add_playing_peer s peer now).2
  | .remove peer => remove_playing_peer s peer
  | .fill id ep => fill_udp_peer s id ep
  | .heartbeat peer now => read_heartbeat s peer now

/-- The registry state after a sequence of operations from start-up. -/
def execOps (ops : List RegOp) : RegState :=
  ops.foldl applyOp RegState.initial

/-- The session ids handed out by the successful `add_playing_peer` calls
along a run, in call order. -/
def alloc_ids (s : RegState) : List RegOp → List Nat
  | [] => []
  | .add peer now :: rest =>
    let r := add_playing_peer s peer now
    (if r.1 = 0 then [] else [r.1]) ++ alloc_ids r.2 rest
  | op :: rest => alloc_ids (applyOp s op) rest

/-! ### Registry lemmas -/

lemma lookup_peer_isSome_iff (l : List (Chan × peer_info_t)) (peer : Chan) :
    (lookup_peer l peer).isSome ↔ ∃ e ∈ l, e.1 = peer := by
  induction l with
  | nil => simp [lookup_peer]
  | cons e rest ih =>
    by_cases h : e.1 = peer
    · simp [lookup_peer, h]
    · simp only [lookup_peer, if_neg h, ih, List.mem_cons]
      constructor
      · rintro ⟨x, hx, hxp⟩; exact ⟨x, Or.inr hx, hxp⟩
      · rintro ⟨x, hx | hx, hxp⟩
        · subst hx; exact absurd hxp h
        · exact ⟨x, hx, hxp⟩

lemma fill_udp_list_map_id (l : List (Chan × peer_info_t)) (id : Nat)
    (ep : Endpoint) :
    (fill_udp_list l id ep).map (fun e => (e.1, e.2.id))
      = l.map (fun e => (e.1, e.2.id)) := by
  induction l with
  | nil => rfl
  | cons e rest ih =>
    by_cases h : e.2.id = id
    · simp [fill_udp_list, h]
    · simp [fill_udp_list, h, ih]

lemma refresh_heartbeat_map_id (l : List (Chan × peer_info_t)) (peer : Chan)
    (now : Nat) :
    (refresh_heartbeat l peer now).map (fun e => (e.1, e.2.id))
      = l.map (fun e => (e.1, e.2.id)) := by
  induction l with
  | nil => rfl
  | cons e rest ih =>
    by_cases h : e.1 = peer
    · simp [refresh_heartbeat, h]
    · simp [refresh_heartbeat, h, ih]

lemma erase_peer_sublist (l : List (Chan × peer_info_t)) (peer : Chan) :
    (erase_peer l peer).Sublist l := by
  induction l with
  | nil => simp [erase_peer]
  | cons e rest ih =>
    by_cases h : e.1 = peer
    · simp only [erase_peer, if_pos h]
      exact (List.sublist_cons_self e rest)
    · simp only [erase_peer, if_neg h]
      exact ih.cons₂ e

/-- Registry invariant carried through every operation: every recorded id
is positive and bounded by the counter. -/
def RegInv (s : RegState) : Prop :=
  ∀ e ∈ s.playing_peer_list, 0 < e.2.id ∧ e.2.id ≤ s.g_id

lemma mem_of_map_pair_id {l l' : List (Chan × peer_info_t)}
    (h : l'.map (fun e => (e.1, e.2.id)) = l.map (fun e => (e.1, e.2.id)))
    {e' : Chan × peer_info_t} (he : e' ∈ l') :
    ∃ e ∈ l, e.2.id = e'.2.id := by
  have hm : (e'.1, e'.2.id) ∈ l.map (fun e => (e.1, e.2.id)) := by
    rw [← h]
    exact List.mem_map_of_mem _ he
  rcases List.mem_map.mp hm with ⟨e, he2, heq⟩
  refine ⟨e, he2, ?_⟩
  have h2 : (e.1, e.2.id).2 = (e'.1, e'.2.id).2 := congrArg Prod.snd heq
  simpa using h2

/-- Case analysis for `add_playing_peer`: the duplicate-add branch versus
the fresh-insert branch. -/
lemma add_playing_peer_cases (s : RegState) (peer : Chan) (now : Nat) :
    (add_playing_peer s peer now = (0, s) ∧
      (lookup_peer s.playing_peer_list peer).isSome = true) ∨
    (add_playing_peer s peer now =
        (s.g_id + 1,
         ⟨s.playing_peer_list ++ [(peer, ⟨s.g_id + 1, now, none⟩)],
          s.g_id + 1⟩) ∧
      lookup_peer s.playing_peer_list peer = none) := by
  cases hl : lookup_peer s.playing_peer_list peer with
  | none =>
    right
    exact ⟨by simp [add_playing_peer, hl], rfl⟩
  | some info =>
    left
    exact ⟨by simp [add_playing_peer, hl], by simp [hl]⟩

lemma regInv_initial : RegInv RegState.initial := by
  intro e he
  simp [RegState.initial] at he

lemma regInv_applyOp {s : RegState} (h : RegInv s) (op : RegOp) :
    RegInv (applyOp s op) := by
  cases op with
  | add peer now =>
    rcases add_playing_peer_cases s peer now with ⟨heq, _⟩ | ⟨heq, _⟩
    · simpa [applyOp, heq] using h
    · simp only [applyOp, heq]
      intro e he
      show 0 < e.2.id ∧ e.2.id ≤ s.g_id + 1
      have he' : e ∈ s.playing_peer_list ∨
          e = (peer, ⟨s.g_id + 1, now, none⟩) := by
        simpa using List.mem_append.mp he
      rcases he' with he' | he'
      · have := h e he'
        omega
      · subst he'
        simp
  | remove peer =>
    intro e he
    have he' : e ∈ s.playing_peer_list :=
      (erase_peer_sublist s.playing_peer_list peer).mem he
    exact h e he'
  | fill id ep =>
    cases hf : s.playing_peer_list.find? (fun e => e.2.id == id) with
    | none => simpa [applyOp, fill_udp_peer, hf] using h
    | some e0 =>
      simp only [applyOp, fill_udp_peer, hf]
      intro e he
      show 0 < e.2.id ∧ e.2.id ≤ s.g_id
      rcases mem_of_map_pair_id
        (fill_udp_list_map_id s.playing_peer_list id ep) he
        with ⟨e1, he1, hid⟩
      have := h e1 he1
      omega
  | heartbeat peer now =>
    intro e he
    show 0 < e.2.id ∧ e.2.id ≤ s.g_id
    rcases mem_of_map_pair_id
      (refresh_heartbeat_map_id s.playing_peer_list peer now) he
      with ⟨e1, he1, hid⟩
    have := h e1 he1
    omega

lemma regInv_execOps (ops : List RegOp) : RegInv (execOps ops) := by
  suffices h : ∀ s, RegInv s → RegInv (ops.foldl applyOp s) by
    exact h RegState.initial regInv_initial
  induction ops with
  | nil => intro s hs; exact hs
  | cons op rest ih =>
    intro s hs
    exact ih _ (regInv_applyOp hs op)

lemma applyOp_g_id_mono (s : RegState) (op : RegOp) :
    s.g_id ≤ (applyOp s op).g_id := by
  cases op with
  | add peer now =>
    rcases add_playing_peer_cases s peer now with ⟨heq, _⟩ | ⟨heq, _⟩
    · simp [applyOp, heq]
    · simp only [applyOp, heq]
      show s.g_id ≤ s.g_id + 1
      omega
  | remove peer => exact Nat.le_refl _
  | fill id ep =>
    cases hf : s.playing_peer_list.find? (fun e => e.2.id == id) with
    | none => simp [applyOp, fill_udp_peer, hf]
    | some e0 =>
      simp only [applyOp, fill_udp_peer, hf]
      exact Nat.le_refl _
  | heartbeat peer now => exact Nat.le_refl _

lemma alloc_ids_lb (ops : List RegOp) :
    ∀ s, ∀ i ∈ alloc_ids s ops, s.g_id < i := by
  induction ops with
  | nil => intro s i hi; simp [alloc_ids] at hi
  | cons op rest ih =>
    intro s i hi
    cases op with
    | add peer now =>
      rcases add_playing_peer_cases s peer now with ⟨heq, _⟩ | ⟨heq, _⟩
      · simp [alloc_ids, heq] at hi
        exact ih s i hi
      · simp only [alloc_ids, heq] at hi
        have hne : ¬ (s.g_id + 1 = 0) := by omega
        simp only [if_neg hne, List.cons_append, List.nil_append,
          List.mem_cons] at hi
        rcases hi with hi | hi
        · omega
        · have h2 := ih
            ⟨s.playing_peer_list ++ [(peer, ⟨s.g_id + 1, now, none⟩)],
             s.g_id + 1⟩ i hi
          have h3 : s.g_id + 1 < i := h2
          omega
    | remove peer =>
      have h2 := ih (applyOp s (.remove peer)) i (by simpa [alloc_ids] using hi)
      have h3 := applyOp_g_id_mono s (.remove peer)
      omega
    | fill id ep =>
      have h2 := ih (applyOp s (.fill id ep)) i (by simpa [alloc_ids] using hi)
      have h3 := applyOp_g_id_mono s (.fill id ep)
      omega
    | heartbeat peer now =>
      have h2 := ih (applyOp s (.heartbeat peer now)) i
        (by simpa [alloc_ids] using hi)
      have h3 := applyOp_g_id_mono s (.heartbeat peer now)
      omega

lemma alloc_ids_sorted (ops : List RegOp) :
    ∀ s, (alloc_ids s ops).Pairwise (· < ·) := by
  induction ops with
  | nil => intro s; simp [alloc_ids]
  | cons op rest ih =>
    intro s
    cases op with
    | add peer now =>
      rcases add_playing_peer_cases s peer now with ⟨heq, _⟩ | ⟨heq, _⟩
      · simp only [alloc_ids, heq]
        simpa only [if_pos rfl, List.nil_append] using ih s
      · simp only [alloc_ids, heq]
        have hne : ¬ (s.g_id + 1 = 0) := by omega
        simp only [if_neg hne, List.cons_append, List.nil_append]
        refine List.pairwise_cons.mpr ⟨?_, ih _⟩
        intro i hi
        have h2 := alloc_ids_lb rest
          ⟨s.playing_peer_list ++ [(peer, ⟨s.g_id + 1, now, none⟩)],
           s.g_id + 1⟩ i hi
        have h3 : s.g_id + 1 < i := h2
        omega
    | remove peer => exact ih (applyOp s (.remove peer))
    | fill id ep => exact ih (applyOp s (.fill id ep))
    | heartbeat peer now => exact ih (applyOp s (.heartbeat peer now))

/-! ### Claim theorems: registry ids -/

/-- C4: in every reachable registry state, every entry's session id is
strictly positive; and along any run, the ids handed out by successful
`add_playing_peer` calls are strictly increasing in call order — so no two
session ids allocated during one process run are equal. -/
theorem registry_ids_positive_and_monotone (ops : List RegOp) :
    (∀ e ∈ (execOps ops).playing_peer_list, 0 < e.2.id) ∧
    (alloc_ids RegState.initial ops).Pairwise (· < ·) := by
  constructor
  · intro e he
    exact (regInv_execOps ops e he).1
  · exact alloc_ids_sorted ops RegState.initial

/-! ### Lookup and erase lemmas -/

lemma lookup_peer_append (l l' : List (Chan × peer_info_t)) (c : Chan) :
    lookup_peer (l ++ l') c = (lookup_peer l c).or (lookup_peer l' c) := by
  induction l with
  | nil => simp [lookup_peer]
  | cons e rest ih =>
    by_cases h : e.1 = c
    · simp [lookup_peer, h]
    · simp [lookup_peer, h, ih]

lemma lookup_peer_eq_none_iff (l : List (Chan × peer_info_t)) (c : Chan) :
    lookup_peer l c = none ↔ ∀ e ∈ l, e.1 ≠ c := by
  induction l with
  | nil => simp [lookup_peer]
  | cons e rest ih =>
    by_cases h : e.1 = c
    · simp [lookup_peer, h]
    · simp only [lookup_peer, if_neg h, ih, List.mem_cons]
      constructor
      · rintro hr x (hx | hx)
        · subst hx; exact h
        · exact hr x hx
      · intro hr x hx
        exact hr x (Or.inr hx)

/-- The keys of the `std::map` `_playing_peer_list` are pairwise distinct. -/
abbrev KeysNodup (l : List (Chan × peer_info_t)) : Prop :=
  (l.map Prod.fst).Nodup

lemma lookup_erase_peer_self (l : List (Chan × peer_info_t)) (peer : Chan)
    (hnd : KeysNodup l) :
    lookup_peer (erase_peer l peer) peer = none := by
  induction l with
  | nil => simp [erase_peer, lookup_peer]
  | cons e rest ih =>
    have hnd' : KeysNodup rest ∧ e.1 ∉ rest.map Prod.fst := by
      have := List.nodup_cons.mp hnd
      exact ⟨this.2, this.1⟩
    by_cases h : e.1 = peer
    · simp only [erase_peer, if_pos h]
      rw [lookup_peer_eq_none_iff]
      intro x hx hxc
      exact hnd'.2 (by rw [h, ← hxc]; exact List.mem_map_of_mem _ hx)
    · simp only [erase_peer, if_neg h, lookup_peer, if_neg h]
      exact ih hnd'.1

lemma lookup_erase_peer_other (l : List (Chan × peer_info_t))
    (peer other : Chan) (hne : other ≠ peer) :
    lookup_peer (erase_peer l peer) other = lookup_peer l other := by
  induction l with
  | nil => simp [erase_peer]
  | cons e rest ih =>
    by_cases h : e.1 = peer
    · have h2 : ¬ (e.1 = other) := by rw [h]; exact fun hh => hne hh.symm
      simp [erase_peer, if_pos h, lookup_peer, if_neg h2]
    · by_cases h2 : e.1 = other
      · simp [erase_peer, if_neg h, lookup_peer, if_pos h2]
      · simp [erase_peer, if_neg h, lookup_peer, if_neg h2, ih]

lemma keys_fill_udp_list (l : List (Chan × peer_info_t)) (id : Nat)
    (ep : Endpoint) :
    (fill_udp_list l id ep).map Prod.fst = l.map Prod.fst := by
  induction l with
  | nil => rfl
  | cons e rest ih =>
    by_cases h : e.2.id = id
    · simp [fill_udp_list, h]
    · simp [fill_udp_list, h, ih]

lemma keys_refresh_heartbeat (l : List (Chan × peer_info_t)) (peer : Chan)
    (now : Nat) :
    (refresh_heartbeat l peer now).map Prod.fst = l.map Prod.fst := by
  induction l with
  | nil => rfl
  | cons e rest ih =>
    by_cases h : e.1 = peer
    · simp [refresh_heartbeat, h]
    · simp [refresh_heartbeat, h, ih]

lemma keysNodup_applyOp {s : RegState} (h : KeysNodup s.playing_peer_list)
    (op : RegOp) : KeysNodup (applyOp s op).playing_peer_list := by
  cases op with
  | add peer now =>
    rcases add_playing_peer_cases s peer now with ⟨heq, _⟩ | ⟨heq, hl⟩
    · simpa [applyOp, heq] using h
    · simp only [applyOp, heq]
      show KeysNodup (s.playing_peer_list ++ [(peer, ⟨s.g_id + 1, now, none⟩)])
      unfold KeysNodup at h ⊢
      rw [List.map_append]
      rw [List.nodup_append]
      refine ⟨h, by simp, ?_⟩
      intro x hx
      rcases List.mem_map.mp hx with ⟨e, he, hex⟩
      have := (lookup_peer_eq_none_iff s.playing_peer_list peer).mp hl e he
      simp only [List.map_cons, List.map_nil, List.mem_singleton]
      intro hcontra
      exact this (by rw [hex, hcontra])
  | remove peer =>
    unfold KeysNodup at h ⊢
    exact ((erase_peer_sublist s.playing_peer_list peer).map Prod.fst).nodup h
  | fill id ep =>
    cases hf : s.playing_peer_list.find? (fun e => e.2.id == id) with
    | none => simpa [applyOp, fill_udp_peer, hf] using h
    | some e0 =>
      simp only [applyOp, fill_udp_peer, hf]
      show KeysNodup (fill_udp_list s.playing_peer_list id ep)
      unfold KeysNodup
      rw [keys_fill_udp_list]
      exact h
  | heartbeat peer now =>
    show KeysNodup (refresh_heartbeat s.playing_peer_list peer now)
    unfold KeysNodup
    rw [keys_refresh_heartbeat]
    exact h

/-- In every reachable registry state the map keys are pairwise distinct
(automatic for the C++ `std::map`; an invariant of the list model). -/
lemma keysNodup_execOps (ops : List RegOp) :
    KeysNodup (execOps ops).playing_peer_list := by
  suffices h : ∀ s, KeysNodup s.playing_peer_list →
      KeysNodup ((ops.foldl applyOp s).playing_peer_list) by
    exact h RegState.initial (by simp [RegState.initial, KeysNodup])
  induction ops with
  | nil => intro s hs; exact hs
  | cons op rest ih =>
    intro s hs
    exact ih _ (keysNodup_applyOp hs op)

/-! ### Claim theorems: add_playing_peer -/

/-- C5: `add_playing_peer` returns 0 and leaves the registry unchanged (the
existing record for the channel intact) when the channel is already
present; otherwise it allocates the next id from the counter (`g_id`,
starting at 0, so the first allocated id is 1) and inserts a fresh record
whose `last_tick` is the current time and whose datagram endpoint is
absent, leaving every other channel's record untouched. -/
theorem add_playing_peer_contract (s : RegState) (peer : Chan) (now : Nat) :
    ((lookup_peer s.playing_peer_list peer).isSome = true →
      add_playing_peer s peer now = (0, s)) ∧
    (lookup_peer s.playing_peer_list peer = none →
      (add_playing_peer s peer now).1 = s.g_id + 1 ∧
      (add_playing_peer s peer now).2.g_id = s.g_id + 1 ∧
      lookup_peer (add_playing_peer s peer now).2.playing_peer_list peer
        = some ⟨s.g_id + 1, now, none⟩ ∧
      (∀ other, other ≠ peer →
        lookup_peer (add_playing_peer s peer now).2.playing_peer_list other
          = lookup_peer s.playing_peer_list other)) ∧
    (add_playing_peer RegState.initial peer now).1 = 1 := by
  refine ⟨?_, ?_, ?_⟩
  · intro hsome
    cases hl : lookup_peer s.playing_peer_list peer with
    | none => rw [hl] at hsome; simp at hsome
    | some info => simp [add_playing_peer, hl]
  · intro hl
    simp only [add_playing_peer, hl]
    refine ⟨trivial, trivial, ?_, ?_⟩
    · show lookup_peer
        (s.playing_peer_list ++ [(peer, ⟨s.g_id + 1, now, none⟩)]) peer
        = some ⟨s.g_id + 1, now, none⟩
      rw [lookup_peer_append, hl]
      simp [lookup_peer]
    · intro other hne
      show lookup_peer
          (s.playing_peer_list ++ [(peer, ⟨s.g_id + 1, now, none⟩)]) other
          = lookup_peer s.playing_peer_list other
      rw [lookup_peer_append]
      have h2 : lookup_peer [(peer, ⟨s.g_id + 1, now, none⟩)] other = none := by
        simp only [lookup_peer]
        rw [if_neg (fun hh => hne hh.symm)]
      rw [h2]
      cases lookup_peer s.playing_peer_list other <;> rfl
  · simp [add_playing_peer, RegState.initial, lookup_peer]

/-- Witness for C5: duplicate add on a registry holding channel 7 is
rejected; a fresh add on channel 9 returns the next id 2. -/
theorem add_playing_peer_contract_witness :
    add_playing_peer ⟨[(7, ⟨1, 5, none⟩)], 1⟩ 7 0
      = (0, ⟨[(7, ⟨1, 5, none⟩)], 1⟩) ∧
    (add_playing_peer ⟨[(7, ⟨1, 5, none⟩)], 1⟩ 9 0).1 = 2 :=
  ⟨(add_playing_peer_contract ⟨[(7, ⟨1, 5, none⟩)], 1⟩ 7 0).1 (by decide),
   ((add_playing_peer_contract ⟨[(7, ⟨1, 5, none⟩)], 1⟩ 9 0).2.1
      (by decide)).1⟩

/-! ### Server session task: one iteration of `read_loop` (lines 208-266)

One successfully read command word, dispatched as in the `.cpp`:
`cmd_get_format` answers with the format blob; `cmd_start_play` registers
the peer (closing the session when `add_playing_peer` yields `id <= 0` or
the answer cannot be written, spawning `heartbeat_loop` otherwise);
`cmd_heartbeat` refreshes `last_tick`; anything else — including
`cmd_none` — logs "error cmd", closes the session and leaves the loop. -/

structure ReadIterResult where
  state : RegState
  closedChan : Bool
  exitLoop : Bool
  spawnedHeartbeat : Bool
  deriving Repr, DecidableEq

def read_loop_iter (s : RegState) (peer : Chan) (cmd now : Nat)
    (writeOk : Bool) : ReadIterResult :=
  if cmd = cmd_get_format then
    if writeOk then ⟨s, false, false, false⟩
    else ⟨(close_session s peer).1, (close_session s peer).2, true, false⟩
  else if cmd = cmd_start_play then
    let r := add_playing_peer s peer now
    if r.1 = 0 then ⟨(close_session r.2 peer).1, (close_session r.2 peer).2, true, false⟩
    else if writeOk then ⟨r.2, false, false, true⟩
    else ⟨(close_session r.2 peer).1, (close_session r.2 peer).2, true, false⟩
  else if cmd = cmd_heartbeat then
    ⟨read_heartbeat s peer now, false, false, false⟩
  else
    ⟨(close_session s peer).1, (close_session s peer).2, true, false⟩

/-! ### Claim theorems: protocol errors -/

/-- C7: a command word that is none of `GET_FORMAT`, `START_PLAY`,
`HEARTBEAT` terminates exactly that session: the read loop exits, the
peer's control channel is shut down and closed, its record (if any) is
removed from the registry, no heartbeat task is spawned, and every other
channel's record — and the id counter — are unaffected. -/
theorem unknown_cmd_terminates_only_that_session (s : RegState) (peer : Chan)
    (cmd now : Nat) (writeOk : Bool)
    (h1 : cmd ≠ cmd_get_format) (h2 : cmd ≠ cmd_start_play)
    (h3 : cmd ≠ cmd_heartbeat)
    (hnd : KeysNodup s.playing_peer_list) :
    (read_loop_iter s peer cmd now writeOk).exitLoop = true ∧
    (read_loop_iter s peer cmd now writeOk).closedChan = true ∧
    (read_loop_iter s peer cmd now writeOk).spawnedHeartbeat = false ∧
    lookup_peer
      (read_loop_iter s peer cmd now writeOk).state.playing_peer_list peer
      = none ∧
    (∀ other, other ≠ peer →
      lookup_peer
        (read_loop_iter s peer cmd now writeOk).state.playing_peer_list other
        = lookup_peer s.playing_peer_list other) ∧
    (read_loop_iter s peer cmd now writeOk).state.g_id = s.g_id := by
  have hr : read_loop_iter s peer cmd now writeOk
      = ⟨(close_session s peer).1, (close_session s peer).2, true, false⟩ := by
    simp [read_loop_iter, if_neg h1, if_neg h2, if_neg h3]
  rw [hr]
  refine ⟨rfl, rfl, rfl, ?_, ?_, rfl⟩
  · exact lookup_erase_peer_self s.playing_peer_list peer hnd
  · intro other hne
    exact lookup_erase_peer_other s.playing_peer_list peer other hne

/-- Witness for C7: command word `0xFFFFFFFF` on channel 1 of a two-session
registry removes session 1, closes its channel, and leaves session 2's
record and the counter as they were. -/
theorem unknown_cmd_terminates_only_that_session_witness :
    (read_loop_iter ⟨[(1, ⟨1, 0, none⟩), (2, ⟨2, 0, none⟩)], 2⟩
        1 4294967295 0 true).exitLoop = true ∧
    (read_loop_iter ⟨[(1, ⟨1, 0, none⟩), (2, ⟨2, 0, none⟩)], 2⟩
        1 4294967295 0 true).closedChan = true ∧
    lookup_peer (read_loop_iter ⟨[(1, ⟨1, 0, none⟩), (2, ⟨2, 0, none⟩)], 2⟩
        1 4294967295 0 true).state.playing_peer_list 1 = none ∧
    lookup_peer (read_loop_iter ⟨[(1, ⟨1, 0, none⟩), (2, ⟨2, 0, none⟩)], 2⟩
        1 4294967295 0 true).state.playing_peer_list 2
      = lookup_peer [(1, ⟨1, 0, none⟩), (2, ⟨2, 0, none⟩)] 2 := by
  have h := unknown_cmd_terminates_only_that_session
    ⟨[(1, ⟨1, 0, none⟩), (2, ⟨2, 0, none⟩)], 2⟩ 1 4294967295 0 true
    (by decide) (by decide) (by decide) (by decide)
  exact ⟨h.1, h.2.1, h.2.2.2.1, h.2.2.2.2.1 2 (by decide)⟩

/-! ### Heartbeat supervisor: one wake of `heartbeat_loop` (lines 268-306)

Each pass sleeps `3s`, then: a timer error ends the loop; a closed channel
ends the loop; a registered-peer lookup miss closes the session; a stale
`last_tick` (`now - last_tick > _heartbeat_timeout`) closes the session; a
failed `HEARTBEAT` write closes the session; otherwise the loop continues.
`_heartbeat_timeout` is configured in the header, so it is a parameter
here; the wake period `3s` is fixed in the `.cpp`. -/

def heartbeat_interval : Nat := 3

/-- The time of the supervisor's `k`-th wake after it starts at `start`:
the timer always runs a full 3-second period before each check. -/
def wake_time (start k : Nat) : Nat := start + heartbeat_interval * (k + 1)

inductive HbAction
  | exitTimerError
  | exitClosed
  | closeNotFound
  | closeTimeout
  | heartbeatSent
  | closeWriteError
  deriving Repr, DecidableEq

structure HbIterResult where
  action : HbAction
  state : RegState
  closedChan : Bool
  exitLoop : Bool
  deriving Repr, DecidableEq

def heartbeat_iter (s : RegState) (peer : Chan) (timerOk peerOpen : Bool)
    (now timeout : Nat) (writeOk : Bool) : HbIterResult :=
  if !timerOk then ⟨.exitTimerError, s, false, true⟩
  else if !peerOpen then ⟨.exitClosed, s, false, true⟩
  else
    match lookup_peer s.playing_peer_list peer with
    | none => ⟨.closeNotFound, (close_session s peer).1, true, true⟩
    | some info =>
      if timeout < now - info.last_tick then
        ⟨.closeTimeout, (close_session s peer).1, true, true⟩
      else if writeOk then ⟨.heartbeatSent, s, false, false⟩
      else ⟨.closeWriteError, (close_session s peer).1, true, true⟩

/-! ### Claim theorems: heartbeat timeout -/

/-- C6: a session whose `last_tick` is never refreshed is evicted by the
supervisor — its record removed and its channel closed — at the first wake
past the deadline `last_tick + timeout`, which falls within one heartbeat
interval (3 seconds) after that deadline, all earlier wakes having only
sent heartbeats; and at any wake at which `now - last_tick ≤ timeout`
(a refresh within the timeout) the supervisor does not evict. -/
theorem heartbeat_timeout_eviction (s : RegState) (peer : Chan)
    (info : peer_info_t) (start timeout : Nat)
    (hl : lookup_peer s.playing_peer_list peer = some info)
    (hnd : KeysNodup s.playing_peer_list)
    (h2 : start ≤ info.last_tick + timeout) :
    (∃ k,
      (heartbeat_iter s peer true true (wake_time start k) timeout true).action
        = HbAction.closeTimeout ∧
      info.last_tick + timeout < wake_time start k ∧
      wake_time start k ≤ info.last_tick + timeout + heartbeat_interval ∧
      lookup_peer (heartbeat_iter s peer true true (wake_time start k)
          timeout true).state.playing_peer_list peer = none ∧
      (heartbeat_iter s peer true true (wake_time start k)
          timeout true).closedChan = true ∧
      ∀ j, j < k →
        (heartbeat_iter s peer true true (wake_time start j) timeout
            true).action = HbAction.heartbeatSent) ∧
    (∀ now2, now2 - info.last_tick ≤ timeout →
      (heartbeat_iter s peer true true now2 timeout true).action
        = HbAction.heartbeatSent ∧
      (heartbeat_iter s peer true true now2 timeout true).closedChan
        = false) := by
  have hsent : ∀ now2, now2 - info.last_tick ≤ timeout →
      heartbeat_iter s peer true true now2 timeout true
        = ⟨.heartbeatSent, s, false, false⟩ := by
    intro now2 hle
    have hcond : ¬ (timeout < now2 - info.last_tick) := by omega
    simp [heartbeat_iter, hl, hcond]
  constructor
  · set d := info.last_tick + timeout with hd
    refine ⟨(d - start) / heartbeat_interval, ?_⟩
    have hI : heartbeat_interval = 3 := rfl
    have hwk : wake_time start ((d - start) / heartbeat_interval)
        = start + 3 * ((d - start) / 3 + 1) := by
      simp [wake_time, hI]
    have hpast : d < wake_time start ((d - start) / heartbeat_interval) := by
      rw [hwk]
      omega
    have hin : wake_time start ((d - start) / heartbeat_interval)
        ≤ d + heartbeat_interval := by
      rw [hwk, hI]
      omega
    have hcond : timeout <
        wake_time start ((d - start) / heartbeat_interval) - info.last_tick := by
      omega
    have hiter : heartbeat_iter s peer true true
        (wake_time start ((d - start) / heartbeat_interval)) timeout true
        = ⟨.closeTimeout, (close_session s peer).1, true, true⟩ := by
      simp [heartbeat_iter, hl, hcond]
    refine ⟨by rw [hiter], hpast, hin, ?_, by rw [hiter], ?_⟩
    · rw [hiter]
      exact lookup_erase_peer_self s.playing_peer_list peer hnd
    · intro j hj
      rw [hI] at hj
      have hwj : wake_time start j ≤ d := by
        simp only [wake_time, hI]
        omega
      rw [hsent (wake_time start j) (by omega)]
  · intro now2 hle
    rw [hsent now2 hle]
    exact ⟨rfl, rfl⟩

/-- Witness for C6: a session registered at time 0 with timeout 10 and
supervisor started at time 0 is evicted at wake time 12 ≤ 13. -/
theorem heartbeat_timeout_eviction_witness :
    (∃ k,
      (heartbeat_iter ⟨[(1, ⟨1, 0, none⟩)], 1⟩ 1 true true (wake_time 0 k)
          10 true).action = HbAction.closeTimeout ∧
      0 + 10 < wake_time 0 k ∧
      wake_time 0 k ≤ 0 + 10 + heartbeat_interval ∧
      lookup_peer (heartbeat_iter ⟨[(1, ⟨1, 0, none⟩)], 1⟩ 1 true true
          (wake_time 0 k) 10 true).state.playing_peer_list 1 = none ∧
      (heartbeat_iter ⟨[(1, ⟨1, 0, none⟩)], 1⟩ 1 true true (wake_time 0 k)
          10 true).closedChan = true ∧
      ∀ j, j < k →
        (heartbeat_iter ⟨[(1, ⟨1, 0, none⟩)], 1⟩ 1 true true (wake_time 0 j)
            10 true).action = HbAction.heartbeatSent) ∧
    (∀ now2, now2 - 0 ≤ 10 →
      (heartbeat_iter ⟨[(1, ⟨1, 0, none⟩)], 1⟩ 1 true true now2 10
          true).action = HbAction.heartbeatSent ∧
      (heartbeat_iter ⟨[(1, ⟨1, 0, none⟩)], 1⟩ 1 true true now2 10
          true).closedChan = false) :=
  heartbeat_timeout_eviction ⟨[(1, ⟨1, 0, none⟩)], 1⟩ 1 ⟨1, 0, none⟩ 0 10
    (by decide) (by decide) (by decide)

/-! ### Broadcast fan-out (`broadcast_audio_data`, lines 420-426)

The posted task:
```cpp
for (const auto& seg : seg_list)
    for (auto& [peer, info] : self->_playing_peer_list)
        self->_udp_server->async_send_to(asio::buffer(*seg), info->udp_peer, ...);
```
It iterates over the whole registry; `info->udp_peer` is read
unconditionally, so a peer whose endpoint was never filled is addressed at
the default-constructed endpoint. -/

/-- The datagram sends enqueued by the posted fan-out task, as
`(segment, target endpoint)` pairs in enqueue order; `peers` is the
registry contents at the time the posted task runs. -/
def broadcast_post_task (peers : List (Chan × peer_info_t))
    (seg_list : List (List Nat)) : List (List Nat × Endpoint) :=
  seg_list.flatMap (fun seg =>
    peers.map (fun e => (seg, e.2.udp_peer.getD default_endpoint)))

/-- Function `network_manager::broadcast_audio_data` end to end: nothing for an
empty payload, otherwise the posted task over the segment list. -/
def broadcast_audio_data (peers : List (Chan × peer_info_t))
    (data : List Nat) (block_align : Nat) : List (List Nat × Endpoint) :=
  if data.length = 0 then []
  else broadcast_post_task peers (broadcast_segments data block_align)

/-! ### Claim theorems: broadcast fan-out -/

/-- C2 fails on the code: a peer in the registry that never registered a
datagram endpoint (`udp_peer` still absent) nevertheless has a datagram
send enqueued for it by `broadcast_audio_data` — the posted task applies
no `datagram_endpoint`-present filter. -/
theorem broadcast_sends_to_unregistered_peer :
    broadcast_audio_data [(1, ⟨1, 0, none⟩)] [37] 1
      = [([37], default_endpoint)] ∧
    (⟨1, 0, none⟩ : peer_info_t).udp_peer = none ∧
    ¬ (∀ p ∈ broadcast_audio_data [(1, ⟨1, 0, none⟩)] [37] 1,
        ∃ e ∈ [((1 : Chan), (⟨1, 0, none⟩ : peer_info_t))],
          e.2.udp_peer = some p.2) := by
  decide

/-- C2 amended: the posted fan-out task enqueues exactly one datagram send
per (segment, registered peer) pair — `|segments| * |peers|` sends in all —
each targeting the peer's stored endpoint when present and the
default-constructed endpoint otherwise; peers that never registered a
datagram endpoint are not skipped. -/
theorem broadcast_post_task_characterization
    (peers : List (Chan × peer_info_t)) (seg_list : List (List Nat)) :
    (broadcast_post_task peers seg_list).length
      = seg_list.length * peers.length ∧
    ∀ seg ep, (seg, ep) ∈ broadcast_post_task peers seg_list ↔
      (seg ∈ seg_list ∧
        ∃ e ∈ peers, ep = e.2.udp_peer.getD default_endpoint) := by
  constructor
  · induction seg_list with
    | nil => simp [broadcast_post_task]
    | cons seg rest ih =>
      simp only [broadcast_post_task, List.flatMap_cons, List.length_append,
        List.length_map, List.length_cons] at ih ⊢
      rw [Nat.succ_mul]
      omega
  · intro seg ep
    constructor
    · intro h
      rcases List.mem_flatMap.mp h with ⟨seg', hseg', hmem⟩
      rcases List.mem_map.mp hmem with ⟨e, he, heq⟩
      have h1 : seg' = seg := congrArg Prod.fst heq
      have h2 : e.2.udp_peer.getD default_endpoint = ep := congrArg Prod.snd heq
      subst h1
      exact ⟨hseg', e, he, h2.symm⟩
    · rintro ⟨hseg, e, he, hep⟩
      refine List.mem_flatMap.mpr ⟨seg, hseg, List.mem_map.mpr ⟨e, he, ?_⟩⟩
      rw [hep]

/-! ### Address selection (`select_default_address`, lines 117-148)

```cpp
constexpr uint32_t private_addr_list[] = { 0x0a000000, 0xac100000, 0xc0a80000 };
uint32_t addr; inet_pton(AF_INET, address.c_str(), &addr); addr = ntohl(addr);
for (auto&& private_addr : private_addr_list)
    if ((addr & private_addr) == private_addr) return true;
```
An address string is represented by its numeric 32-bit value (what
`ntohl(inet_pton(s))` yields for a valid dotted quad), and the empty result
string by `none`. -/

def private_addr_list : List Nat := [0x0a000000, 0xac100000, 0xc0a80000]

/-- The `is_private_address` lambda: `(addr & private_addr) == private_addr`
for some entry of `private_addr_list`.  Note this tests that all bits of
the constant are set — it is not a prefix-range test. -/
def is_private_address (addr : Nat) : Bool :=
  private_addr_list.any (fun p => Nat.land addr p == p)

def select_default_address (address_list : List Nat) : Option Nat :=
  match address_list with
  | [] => none
  | x :: _ =>
    match address_list.find? is_private_address with
    | some a => some a
    | none => some x

/-- Modelled from the spec: membership of an IPv4 address in `10.0.0.0/8`,
`172.16.0.0/12`, or `192.168.0.0/16` (the three private ranges named by the
spec), as a test on the leading 8, 12, or 16 bits. -/
def spec_private_address (addr : Nat) : Bool :=
  (addr / 2 ^ 24 == 0x0a) || (addr / 2 ^ 20 == 0xac1) || (addr / 2 ^ 16 == 0xc0a8)

/-! ### Claim theorems: address selection -/

/-- C3 fails on the code: for the list `[11.0.0.1, 10.0.0.1]` the first
element lying in the three private ranges is `10.0.0.1`, yet
`select_default_address` returns `11.0.0.1`, because `(addr & 0x0a000000)
== 0x0a000000` also accepts addresses outside `10.0.0.0/8`. -/
theorem select_default_address_counterexample :
    select_default_address [0x0b000001, 0x0a000001] = some 0x0b000001 ∧
    spec_private_address 0x0b000001 = false ∧
    spec_private_address 0x0a000001 = true ∧
    (0x0b000001 : Nat) ≠ 0x0a000001 := by
  decide

lemma find?_first_split {α : Type} (p : α → Bool) :
    ∀ (l : List α) (a : α), l.find? p = some a →
      p a = true ∧ ∃ l₁ l₂, l = l₁ ++ a :: l₂ ∧ ∀ b ∈ l₁, p b = false := by
  intro l
  induction l with
  | nil => intro a h; simp at h
  | cons x xs ih =>
    intro a h
    by_cases hp : p x = true
    · rw [List.find?_cons_of_pos _ hp] at h
      have hxa : x = a := Option.some.inj h
      subst hxa
      exact ⟨hp, [], xs, rfl, by simp⟩
    · have hp' : p x = false := by simpa using hp
      rw [List.find?_cons_of_neg _ (by simp [hp'])] at h
      rcases ih a h with ⟨hpa, l₁, l₂, hsplit, hall⟩
      refine ⟨hpa, x :: l₁, l₂, by rw [hsplit, List.cons_append], ?_⟩
      intro b hb
      rcases List.mem_cons.mp hb with hb | hb
      · subst hb; exact hp'
      · exact hall b hb

/-- C3 amended: `select_default_address` returns the first element
satisfying the code's mask test `(addr & m) == m` for one of
`0x0a000000`, `0xac100000`, `0xc0a80000` (a superset of the three private
ranges); when no element passes that test it returns the first element;
for the empty list it returns the empty string. -/
theorem select_default_address_amended (l : List Nat) :
    (l = [] → select_default_address l = none) ∧
    (l ≠ [] → ∃ a, select_default_address l = some a ∧ a ∈ l ∧
      ((is_private_address a = true ∧
        ∃ l₁ l₂, l = l₁ ++ a :: l₂ ∧ ∀ b ∈ l₁, is_private_address b = false) ∨
       ((∀ b ∈ l, is_private_address b = false) ∧ l.head? = some a))) := by
  constructor
  · intro h
    subst h
    rfl
  · intro hne
    match l with
    | [] => exact absurd rfl hne
    | x :: xs =>
      cases hf : (x :: xs).find? is_private_address with
      | some a =>
        refine ⟨a, ?_, List.mem_of_find?_eq_some hf, ?_⟩
        · simp [select_default_address, hf]
        · left
          rcases find?_first_split is_private_address (x :: xs) a hf
            with ⟨hpa, l₁, l₂, hsplit, hall⟩
          exact ⟨hpa, l₁, l₂, hsplit, hall⟩
      | none =>
        refine ⟨x, ?_, List.mem_cons_self x xs, ?_⟩
        · simp [select_default_address, hf]
        · right
          refine ⟨?_, rfl⟩
          intro b hb
          have := List.find?_eq_none.mp hf b hb
          simpa using this

/-- Witness for C3's amended claim at the spec's S6 list
`["8.8.8.8", "192.168.1.5", "10.0.0.2"]` (numerically
`[134744072, 3232235781, 167772162]`): the code returns `192.168.1.5`. -/
theorem select_default_address_amended_witness :
    select_default_address [134744072, 3232235781, 167772162]
      = some 3232235781 ∧
    (∃ a, select_default_address [134744072, 3232235781, 167772162] = some a ∧
      a ∈ [134744072, 3232235781, 167772162] ∧
      ((is_private_address a = true ∧
        ∃ l₁ l₂, [134744072, 3232235781, 167772162] = l₁ ++ a :: l₂ ∧
          ∀ b ∈ l₁, is_private_address b = false) ∨
       ((∀ b ∈ [134744072, 3232235781, 167772162],
          is_private_address b = false) ∧
        List.head? [134744072, 3232235781, 167772162] = some a))) :=
  ⟨by decide,
   (select_default_address_amended [134744072, 3232235781, 167772162]).2
     (by decide)⟩

/-! ### Server lifecycle (`start_server` lines 150-183, `stop_server` lines 185-196)

```cpp
void network_manager::stop_server()
{
    if (_ioc) { _ioc->stop(); }
    _net_thread.join();
    _audio_manager->stop();
    _playing_peer_list.clear();
    _udp_server = nullptr;
    _ioc = nullptr;
}
```
`_net_thread.join()` runs unconditionally.  Per the C++ standard,
`std::thread::join` throws `std::system_error` with `invalid_argument`
when `joinable()` is false — which is the case for the default-constructed
`_net_thread` of a manager on which `start_server` was never called. -/

structure net_thread_t where
  joinable : Bool
  deriving Repr, DecidableEq

/-- Operation `std::thread::join`: succeeds (leaving a non-joinable handle) only on a
joinable thread; otherwise throws `std::system_error`. -/
def thread_join (t : net_thread_t) : Except String net_thread_t :=
  if t.joinable then Except.ok ⟨false⟩
  else Except.error "std::system_error: invalid_argument"

/-- The `network_manager` fields `stop_server` touches: `_ioc` (modelled
as whether it is non-null), `_net_thread`, the audio collaborator's
running flag, `_playing_peer_list`, `_udp_server` (non-null flag). -/
structure manager_state where
  ioc : Bool
  net_thread : net_thread_t
  audio_running : Bool
  playing_peer_list : List (Chan × peer_info_t)
  udp_server : Bool
  deriving Repr, DecidableEq

/-- A freshly constructed `network_manager`: null `_ioc`, null
`_udp_server`, default-constructed (non-joinable) `_net_thread`. -/
def fresh_manager : manager_state := ⟨false, ⟨false⟩, false, [], false⟩

/-- The state effects of a successful `start_server`: `_ioc` and
`_udp_server` created, loopback capture started, `_net_thread` started
(joinable). -/
def start_server (s : manager_state) : manager_state :=
  { ioc := true, net_thread := ⟨true⟩, audio_running := true,
    playing_peer_list := s.playing_peer_list, udp_server := true }

/-- Function `network_manager::stop_server`: stop `_ioc` if non-null (no modelled
state change), join `_net_thread` unconditionally, stop audio, clear the
registry, null out `_udp_server` and `_ioc`. -/
def stop_server (s : manager_state) : Except String manager_state :=
  match thread_join s.net_thread with
  | .error e => .error e
  | .ok t => .ok ⟨false, t, false, [], false⟩

/-! ### Claim theorems: stop_server -/

/-- C8 is violated by the code (code bug): on a manager where
`start_server` was never called, `stop_server` calls
`_net_thread.join()` on the default-constructed, non-joinable thread,
which throws `std::system_error` — a failing operation — whereas one
`stop_server` after a `start_server` completes without failure. -/
theorem stop_server_unstarted_fails :
    stop_server fresh_manager
      = Except.error "std::system_error: invalid_argument" ∧
    (stop_server (start_server fresh_manager)).isOk = true :=
  ⟨rfl, rfl⟩

/-! ### fill_udp_peer lemmas -/

lemma lookup_peer_mem (l : List (Chan × peer_info_t)) (c : Chan)
    (info : peer_info_t) (h : lookup_peer l c = some info) :
    ∃ e ∈ l, e.1 = c ∧ e.2 = info := by
  induction l with
  | nil => simp [lookup_peer] at h
  | cons e rest ih =>
    by_cases hc : e.1 = c
    · rw [lookup_peer, if_pos hc] at h
      exact ⟨e, List.mem_cons_self e rest, hc, Option.some.inj h⟩
    · rw [lookup_peer, if_neg hc] at h
      rcases ih h with ⟨e', he', h1, h2⟩
      exact ⟨e', List.mem_cons_of_mem e he', h1, h2⟩

lemma lookup_fill_udp_list_cases (l : List (Chan × peer_info_t)) (id : Nat)
    (ep : Endpoint) (c : Chan) :
    lookup_peer (fill_udp_list l id ep) c = lookup_peer l c ∨
    ∃ info, lookup_peer l c = some info ∧
      lookup_peer (fill_udp_list l id ep) c
        = some { info with udp_peer := some ep } := by
  induction l with
  | nil => left; rfl
  | cons e rest ih =>
    by_cases hid : e.2.id = id
    · by_cases hc : e.1 = c
      · right
        exact ⟨e.2, by simp [lookup_peer, hc],
          by simp [fill_udp_list, hid, lookup_peer, hc]⟩
      · left
        simp [fill_udp_list, hid, lookup_peer, hc]
    · by_cases hc : e.1 = c
      · left
        simp [fill_udp_list, hid, lookup_peer, hc]
      · rcases ih with h | ⟨info, h1, h2⟩
        · left
          simp [fill_udp_list, hid, lookup_peer, hc, h]
        · right
          exact ⟨info, by simp [lookup_peer, hc, h1],
            by simp [fill_udp_list, hid, lookup_peer, hc, h2]⟩

lemma lookup_refresh_heartbeat_cases (l : List (Chan × peer_info_t))
    (peer : Chan) (now : Nat) (c : Chan) :
    lookup_peer (refresh_heartbeat l peer now) c = lookup_peer l c ∨
    ∃ info, lookup_peer l c = some info ∧
      lookup_peer (refresh_heartbeat l peer now) c
        = some { info with last_tick := now } := by
  induction l with
  | nil => left; rfl
  | cons e rest ih =>
    by_cases hp : e.1 = peer
    · have hr : refresh_heartbeat (e :: rest) peer now
          = (e.1, { e.2 with last_tick := now }) :: rest := by
        simp only [refresh_heartbeat, if_pos hp]
      by_cases hc : e.1 = c
      · right
        refine ⟨e.2, ?_, ?_⟩
        · rw [lookup_peer, if_pos hc]
        · rw [hr]
          show (if e.1 = c then some { e.2 with last_tick := now }
               else lookup_peer rest c)
              = some { e.2 with last_tick := now }
          rw [if_pos hc]
      · left
        rw [hr]
        show (if e.1 = c then some { e.2 with last_tick := now }
             else lookup_peer rest c)
            = lookup_peer (e :: rest) c
        rw [if_neg hc, lookup_peer, if_neg hc]
    · have hr : refresh_heartbeat (e :: rest) peer now
          = e :: refresh_heartbeat rest peer now := by
        simp only [refresh_heartbeat, if_neg hp]
      by_cases hc : e.1 = c
      · left
        rw [hr, lookup_peer, if_pos hc, lookup_peer, if_pos hc]
      · rw [hr, lookup_peer, if_neg hc, lookup_peer, if_neg hc]
        exact ih

lemma lookup_fill_udp_list_overwrite (l : List (Chan × peer_info_t))
    (id : Nat) (ep : Endpoint) (chan : Chan) (info : peer_info_t)
    (hids : (l.map (fun e => e.2.id)).Nodup)
    (hl : lookup_peer l chan = some info) (hid : info.id = id) :
    lookup_peer (fill_udp_list l id ep) chan
      = some { info with udp_peer := some ep } := by
  induction l with
  | nil => simp [lookup_peer] at hl
  | cons e rest ih =>
    have hids' : (rest.map (fun e => e.2.id)).Nodup ∧
        e.2.id ∉ rest.map (fun e => e.2.id) := by
      have := List.nodup_cons.mp hids
      exact ⟨this.2, this.1⟩
    by_cases hc : e.1 = chan
    · rw [lookup_peer, if_pos hc] at hl
      have he2 : e.2 = info := Option.some.inj hl
      have heid : e.2.id = id := by rw [he2, hid]
      simp only [fill_udp_list, if_pos heid]
      show (if e.1 = chan then some { e.2 with udp_peer := some ep }
           else lookup_peer rest chan)
          = some { info with udp_peer := some ep }
      rw [if_pos hc, he2]
    · rw [lookup_peer, if_neg hc] at hl
      have heid : ¬ (e.2.id = id) := by
        intro heq
        rcases lookup_peer_mem rest chan info hl with ⟨e', he', _, he2'⟩
        have : e.2.id ∈ rest.map (fun e => e.2.id) := by
          rw [heq, ← hid, ← he2']
          exact List.mem_map_of_mem _ he'
        exact hids'.2 this
      simp only [fill_udp_list, if_neg heid, lookup_peer, if_neg hc]
      exact ih hids'.1 hl

/-! ### Claim theorems: datagram endpoint registration -/

/-- C9 fails on the code: `fill_udp_peer` assigns `udp_peer`
unconditionally, so a second registration datagram carrying the same
session id but a different source overwrites the stored endpoint
(7 becomes 9). -/
theorem fill_udp_peer_overwrite_counterexample :
    lookup_peer (fill_udp_peer ⟨[(5, ⟨1, 0, none⟩)], 1⟩ 1 7).playing_peer_list
        5 = some ⟨1, 0, some 7⟩ ∧
    lookup_peer (fill_udp_peer (fill_udp_peer ⟨[(5, ⟨1, 0, none⟩)], 1⟩ 1 7)
        1 9).playing_peer_list 5 = some ⟨1, 0, some 9⟩ ∧
    (some 9 : Option Endpoint) ≠ some 7 := by
  decide

/-- C9 amended: a session's `udp_peer`, once present, is never cleared by
any registry operation (it stays present until the record itself is
removed), but it is not write-once: every registration datagram whose id is
found assigns the endpoint, so a later registration with the same id
overwrites the stored endpoint with the new sender address. -/
theorem udp_peer_never_cleared_but_overwritable (s : RegState) (chan : Chan)
    (info : peer_info_t) (op : RegOp)
    (hnd : KeysNodup s.playing_peer_list)
    (hids : (s.playing_peer_list.map (fun e => e.2.id)).Nodup)
    (hl : lookup_peer s.playing_peer_list chan = some info) :
    (info.udp_peer.isSome = true →
      lookup_peer (applyOp s op).playing_peer_list chan = none ∨
      ∃ info', lookup_peer (applyOp s op).playing_peer_list chan = some info' ∧
        info'.udp_peer.isSome = true) ∧
    (∀ ep, lookup_peer (fill_udp_peer s info.id ep).playing_peer_list chan
        = some { info with udp_peer := some ep }) := by
  constructor
  · intro hsome
    cases op with
    | add peer now =>
      rcases add_playing_peer_cases s peer now with ⟨heq, _⟩ | ⟨heq, _⟩
      · right
        exact ⟨info, by simpa [applyOp, heq] using hl, hsome⟩
      · right
        refine ⟨info, ?_, hsome⟩
        simp only [applyOp, heq]
        show lookup_peer
            (s.playing_peer_list ++ [(peer, ⟨s.g_id + 1, now, none⟩)]) chan
            = some info
        rw [lookup_peer_append, hl]
        rfl
    | remove peer =>
      by_cases hc : chan = peer
      · left
        subst hc
        exact lookup_erase_peer_self s.playing_peer_list chan hnd
      · right
        refine ⟨info, ?_, hsome⟩
        show lookup_peer (erase_peer s.playing_peer_list peer) chan = some info
        rw [lookup_erase_peer_other s.playing_peer_list peer chan hc]
        exact hl
    | fill id ep =>
      cases hf : s.playing_peer_list.find? (fun e => e.2.id == id) with
      | none =>
        right
        exact ⟨info, by simpa [applyOp, fill_udp_peer, hf] using hl, hsome⟩
      | some e0 =>
        have hred : (applyOp s (.fill id ep)).playing_peer_list
            = fill_udp_list s.playing_peer_list id ep := by
          simp [applyOp, fill_udp_peer, hf]
        rw [hred]
        rcases lookup_fill_udp_list_cases s.playing_peer_list id ep chan
          with h | ⟨info0, h1, h2⟩
        · right
          exact ⟨info, by rw [h]; exact hl, hsome⟩
        · right
          have : info0 = info := by
            rw [hl] at h1
            exact (Option.some.inj h1).symm
          subst this
          exact ⟨{ info0 with udp_peer := some ep }, h2, by simp⟩
    | heartbeat peer now =>
      have hred : (applyOp s (.heartbeat peer now)).playing_peer_list
          = refresh_heartbeat s.playing_peer_list peer now := rfl
      rw [hred]
      rcases lookup_refresh_heartbeat_cases s.playing_peer_list peer now chan
        with h | ⟨info0, h1, h2⟩
      · right
        exact ⟨info, by rw [h]; exact hl, hsome⟩
      · right
        have : info0 = info := by
          rw [hl] at h1
          exact (Option.some.inj h1).symm
        subst this
        exact ⟨{ info0 with last_tick := now }, h2, by simpa using hsome⟩
  · intro ep
    have hfind : ∃ e ∈ s.playing_peer_list,
        (fun e => e.2.id == info.id) e = true := by
      rcases lookup_peer_mem s.playing_peer_list chan info hl
        with ⟨e, he, _, he2⟩
      exact ⟨e, he, by simp [he2]⟩
    cases hf : s.playing_peer_list.find? (fun e => e.2.id == info.id) with
    | none =>
      have := List.find?_eq_none.mp hf
      rcases hfind with ⟨e, he, hpe⟩
      exact absurd hpe (by simpa using this e he)
    | some e0 =>
      have hred : (fill_udp_peer s info.id ep).playing_peer_list
          = fill_udp_list s.playing_peer_list info.id ep := by
        simp [fill_udp_peer, hf]
      rw [hred]
      exact lookup_fill_udp_list_overwrite s.playing_peer_list info.id ep chan
        info hids hl rfl

/-- Witness for C9's amended claim: on a registry where session 1 (channel
5) already stores endpoint 7, a `fill` with id 1 and endpoint 9 keeps the
endpoint present and overwrites it to 9. -/
theorem udp_peer_never_cleared_but_overwritable_witness :
    (lookup_peer (applyOp ⟨[(5, ⟨1, 0, some 7⟩)], 1⟩
        (RegOp.fill 1 9)).playing_peer_list 5 = none ∨
      ∃ info', lookup_peer (applyOp ⟨[(5, ⟨1, 0, some 7⟩)], 1⟩
          (RegOp.fill 1 9)).playing_peer_list 5 = some info' ∧
        info'.udp_peer.isSome = true) ∧
    lookup_peer (fill_udp_peer ⟨[(5, ⟨1, 0, some 7⟩)], 1⟩ 1
        9).playing_peer_list 5 = some ⟨1, 0, some 9⟩ :=
  ⟨(udp_peer_never_cleared_but_overwritable ⟨[(5, ⟨1, 0, some 7⟩)], 1⟩ 5
      ⟨1, 0, some 7⟩ (RegOp.fill 1 9) (by decide) (by decide) (by decide)).1
      (by decide),
   (udp_peer_never_cleared_but_overwritable ⟨[(5, ⟨1, 0, some 7⟩)], 1⟩ 5
      ⟨1, 0, some 7⟩ (RegOp.fill 1 9) (by decide) (by decide) (by decide)).2 9⟩

end AudioShare
